import Mathlib

/-!
Verification of the directory-reconciliation utilities in the tinkertoys
repository (`python/system/keepLargerVersion.py`, `python/system/compareFolders.py`,
`python/system/compareSizes.py`, `python/lib/hash_for_file.py`) against their
natural-language specification.

The Python code is shallowly embedded: each Python function relevant to a claim
is translated into an executable Lean definition over explicit data (file sizes
as `Nat`, creation timestamps as `Int` — `st_ctime` is used only through order
comparisons, so any linear order is faithful; filenames and paths as `String`;
fallible filesystem reads as `Except String`).
-/

namespace Tinkertoys

/-! ## Resolver: `keepLargerVersion.decide_which_to_keep`

`decide_which_to_keep` receives a list of `(path, size, creation_time)` tuples
(built by `analyze_duplicates` from `stat` results) and runs
`sorted(file_info, key=lambda x: (-x[1], x[2]))`, keeping the head and
returning the remaining paths for removal. -/

/-- One `(path, st_size, st_ctime)` tuple as produced by `analyze_duplicates`. -/
structure FileInfo where
  path : String
  size : Nat
  ctime : Int
deriving DecidableEq, Repr

/-- The sort order induced by Python's key `(-size, ctime)`, ascending
lexicographically: `a` sorts no later than `b` iff `a.size > b.size`, or the
sizes are equal and `a.ctime ≤ b.ctime`. -/
def keyLE (a b : FileInfo) : Bool :=
  b.size < a.size || (a.size == b.size && a.ctime ≤ b.ctime)

/-- Stable insertion of one record into a list sorted by `keyLE`; on an exact
key tie the inserted record goes first, which together with `sortByKey`'s
right fold reproduces the stability of Python's `sorted`. -/
def insertSorted (x : FileInfo) : List FileInfo → List FileInfo
  | [] => [x]
  | y :: ys => if keyLE x y then x :: y :: ys else y :: insertSorted x ys

/-- Python's `sorted(file_info, key=lambda x: (-x[1], x[2]))`. -/
def sortByKey (l : List FileInfo) : List FileInfo :=
  l.foldr insertSorted []

/-- `decide_which_to_keep(file_info)`: sort by `(-size, ctime)`, keep the head's
path, schedule every other path for removal.  The Python function indexes
`sorted_files[0]` and so is undefined on an empty list; that case is `none`. -/
def decide_which_to_keep (file_info : List FileInfo) :
    Option (String × List String) :=
  match sortByKey file_info with
  | [] => none
  | keep :: rest => some (keep.path, rest.map FileInfo.path)

theorem keyLE_refl (a : FileInfo) : keyLE a a = true := by
  simp [keyLE]

theorem keyLE_total (a b : FileInfo) : keyLE a b = true ∨ keyLE b a = true := by
  simp only [keyLE, Bool.or_eq_true, Bool.and_eq_true, beq_iff_eq,
    decide_eq_true_eq]
  omega

theorem keyLE_trans {a b c : FileInfo} (hab : keyLE a b = true)
    (hbc : keyLE b c = true) : keyLE a c = true := by
  simp only [keyLE, Bool.or_eq_true, Bool.and_eq_true, beq_iff_eq,
    decide_eq_true_eq] at *
  omega

theorem insertSorted_perm (x : FileInfo) (l : List FileInfo) :
    (insertSorted x l).Perm (x :: l) := by
  induction l with
  | nil => simp [insertSorted]
  | cons y ys ih =>
    by_cases h : keyLE x y = true
    · simp [insertSorted, h]
    · simp only [insertSorted, h, if_false]
      exact ((ih.cons y).trans (List.Perm.swap x y ys))

theorem sortByKey_perm (l : List FileInfo) : (sortByKey l).Perm l := by
  induction l with
  | nil => simp [sortByKey]
  | cons x xs ih =>
    exact (insertSorted_perm x (sortByKey xs)).trans (ih.cons x)

theorem insertSorted_pairwise (x : FileInfo) (l : List FileInfo)
    (h : l.Pairwise (fun a b => keyLE a b = true)) :
    (insertSorted x l).Pairwise (fun a b => keyLE a b = true) := by
  induction l with
  | nil => simp [insertSorted]
  | cons y ys ih =>
    rcases List.pairwise_cons.mp h with ⟨hy, hys⟩
    by_cases hxy : keyLE x y = true
    · simp only [insertSorted, hxy, if_true]
      refine List.pairwise_cons.mpr ⟨?_, h⟩
      intro b hb
      rcases List.mem_cons.mp hb with h1 | hb'
      · exact h1 ▸ hxy
      · exact keyLE_trans hxy (hy _ hb')
    · have hyx : keyLE y x = true := (keyLE_total x y).resolve_left hxy
      simp only [insertSorted, hxy, if_false]
      refine List.pairwise_cons.mpr ⟨?_, ih hys⟩
      intro b hb
      have hbm := (insertSorted_perm x ys).mem_iff.mp hb
      rcases List.mem_cons.mp hbm with h1 | hb'
      · exact h1 ▸ hyx
      · exact hy _ hb'

theorem sortByKey_pairwise (l : List FileInfo) :
    (sortByKey l).Pairwise (fun a b => keyLE a b = true) := by
  induction l with
  | nil => simp [sortByKey]
  | cons x xs ih => exact insertSorted_pairwise x (sortByKey xs) ih

/-- The head of the sorted list is `keyLE` everything in the input list. -/
theorem sortByKey_head_le {l : List FileInfo} {k : FileInfo}
    {rest : List FileInfo} (h : sortByKey l = k :: rest) :
    ∀ r ∈ l, keyLE k r = true := by
  intro r hr
  have hmem : r ∈ sortByKey l := (sortByKey_perm l).mem_iff.mpr hr
  rw [h] at hmem
  rcases List.mem_cons.mp hmem with h1 | hmem'
  · exact h1 ▸ keyLE_refl k
  · have hp := sortByKey_pairwise l
    rw [h] at hp
    exact (List.pairwise_cons.mp hp).1 _ hmem'

theorem keyLE_size_le {a b : FileInfo} (h : keyLE a b = true) :
    b.size ≤ a.size := by
  simp only [keyLE, Bool.or_eq_true, Bool.and_eq_true, beq_iff_eq,
    decide_eq_true_eq] at h
  omega

theorem keyLE_ctime_le {a b : FileInfo} (h : keyLE a b = true)
    (hsz : b.size = a.size) : a.ctime ≤ b.ctime := by
  simp only [keyLE, Bool.or_eq_true, Bool.and_eq_true, beq_iff_eq,
    decide_eq_true_eq] at h
  omega

/-- Claim C1. Resolver tie-break correctness and determinism: on any list of two
or more records, `decide_which_to_keep` keeps a record of maximal size, and
among the records of that maximal size one with the smallest creation time; in
particular on `[(100, t₁), (200, t₂)]` it keeps the size-200 record in either
input order, and on `[(100, 5), (100, 3)]` it keeps the ctime-3 record. -/
theorem decide_which_to_keep_spec (fi : List FileInfo) (h2 : 2 ≤ fi.length) :
    (∃ keep rem, decide_which_to_keep fi = some (keep, rem) ∧
      ∃ r ∈ fi, r.path = keep ∧
        (∀ s ∈ fi, s.size ≤ r.size) ∧
        (∀ s ∈ fi, s.size = r.size → r.ctime ≤ s.ctime)) ∧
    (∀ pa pb : String, ∀ t1 t2 : Int,
      decide_which_to_keep [⟨pa, 100, t1⟩, ⟨pb, 200, t2⟩] = some (pb, [pa]) ∧
      decide_which_to_keep [⟨pb, 200, t2⟩, ⟨pa, 100, t1⟩] = some (pb, [pa])) ∧
    (∀ pa pb : String,
      decide_which_to_keep [⟨pa, 100, 5⟩, ⟨pb, 100, 3⟩] = some (pb, [pa])) := by
  refine ⟨?_, ?_, ?_⟩
  · match hs : sortByKey fi with
    | [] =>
      have := (sortByKey_perm fi).length_eq
      rw [hs] at this
      simp at this
      omega
    | k :: rest =>
      refine ⟨k.path, rest.map FileInfo.path, ?_, k, ?_, rfl, ?_, ?_⟩
      · simp [decide_which_to_keep, hs]
      · have : k ∈ sortByKey fi := by rw [hs]; exact List.mem_cons_self _ _
        exact (sortByKey_perm fi).mem_iff.mp this
      · intro s hsmem
        exact keyLE_size_le (sortByKey_head_le hs s hsmem)
      · intro s hsmem hsz
        exact keyLE_ctime_le (sortByKey_head_le hs s hsmem) hsz
  · intro pa pb t1 t2
    constructor
    · simp [decide_which_to_keep, sortByKey, insertSorted, keyLE]
    · simp [decide_which_to_keep, sortByKey, insertSorted, keyLE]
  · intro pa pb
    simp [decide_which_to_keep, sortByKey, insertSorted, keyLE]

/-- Witness for C1 at the concrete group
`[("a", 100, 5), ("b", 200, 7)]`. -/
theorem decide_which_to_keep_spec_witness :
    2 ≤ ([⟨"a", 100, 5⟩, ⟨"b", 200, 7⟩] : List FileInfo).length ∧
    ((∃ keep rem,
        decide_which_to_keep [⟨"a", 100, 5⟩, ⟨"b", 200, 7⟩] =
          some (keep, rem) ∧
        ∃ r ∈ ([⟨"a", 100, 5⟩, ⟨"b", 200, 7⟩] : List FileInfo), r.path = keep ∧
          (∀ s ∈ ([⟨"a", 100, 5⟩, ⟨"b", 200, 7⟩] : List FileInfo),
            s.size ≤ r.size) ∧
          (∀ s ∈ ([⟨"a", 100, 5⟩, ⟨"b", 200, 7⟩] : List FileInfo),
            s.size = r.size → r.ctime ≤ s.ctime)) ∧
      (∀ pa pb : String, ∀ t1 t2 : Int,
        decide_which_to_keep [⟨pa, 100, t1⟩, ⟨pb, 200, t2⟩] =
          some (pb, [pa]) ∧
        decide_which_to_keep [⟨pb, 200, t2⟩, ⟨pa, 100, t1⟩] =
          some (pb, [pa])) ∧
      (∀ pa pb : String,
        decide_which_to_keep [⟨pa, 100, 5⟩, ⟨pb, 100, 3⟩] =
          some (pb, [pa]))) :=
  ⟨by decide, decide_which_to_keep_spec _ (by decide)⟩

/-- Claim C10. Resolver conservation: on a non-empty input the kept path together
with the removal list is a permutation of the input records' paths — exactly
one record is kept and every other record appears exactly once in the removal
list. -/
theorem decide_which_to_keep_conservation (fi : List FileInfo)
    (h : fi ≠ []) :
    ∃ keep rem, decide_which_to_keep fi = some (keep, rem) ∧
      (keep :: rem).Perm (fi.map FileInfo.path) := by
  match hs : sortByKey fi with
  | [] =>
    have := (sortByKey_perm fi).length_eq
    rw [hs] at this
    simp only [List.length_nil] at this
    exact absurd (List.length_eq_zero.mp this.symm) h
  | k :: rest =>
    refine ⟨k.path, rest.map FileInfo.path, by simp [decide_which_to_keep, hs], ?_⟩
    have hp : ((k :: rest).map FileInfo.path).Perm (fi.map FileInfo.path) := by
      exact (hs ▸ sortByKey_perm fi).map FileInfo.path
    simpa using hp

/-- Witness for C10 at the concrete group
`[("a", 64, 1), ("b", 64, 0), ("c", 32, 2)]`. -/
theorem decide_which_to_keep_conservation_witness :
    ([⟨"a", 64, 1⟩, ⟨"b", 64, 0⟩, ⟨"c", 32, 2⟩] : List FileInfo) ≠ [] ∧
    (∃ keep rem,
      decide_which_to_keep [⟨"a", 64, 1⟩, ⟨"b", 64, 0⟩, ⟨"c", 32, 2⟩] =
        some (keep, rem) ∧
      (keep :: rem).Perm
        (([⟨"a", 64, 1⟩, ⟨"b", 64, 0⟩, ⟨"c", 32, 2⟩] : List FileInfo).map
          FileInfo.path)) :=
  ⟨by decide, decide_which_to_keep_conservation _ (by decide)⟩

/-! ## Matcher: `compareFolders.find_differences`

The Python function receives two `set`s of filenames and returns
`sorted(list(left_files - right_files))` and `sorted(list(right_files -
left_files))`.  Python sets are embedded as `Finset String` and `sorted` as
`Finset.sort` under the lexicographic (code-point) order on strings, which is
the order Python's `sorted` uses on `str`. -/

/-- `find_differences(left_files, right_files, ...)`: the two directory-name
arguments are used only for reporting and do not influence the result. -/
def find_differences (left_files right_files : Finset String) :
    List String × List String :=
  (Finset.sort (· ≤ ·) (left_files \ right_files),
   Finset.sort (· ≤ ·) (right_files \ left_files))

/-- Claim C2. Matcher set correctness: `only_left` holds exactly the left keys
missing on the right and `only_right` exactly the right keys missing on the
left, both sorted lexicographically; the function is pure, so two runs on the
same inputs agree. -/
theorem find_differences_spec (left_files right_files : Finset String) :
    (∀ x, x ∈ (find_differences left_files right_files).1 ↔
        (x ∈ left_files ∧ x ∉ right_files)) ∧
    (∀ x, x ∈ (find_differences left_files right_files).2 ↔
        (x ∈ right_files ∧ x ∉ left_files)) ∧
    (find_differences left_files right_files).1.Sorted (· ≤ ·) ∧
    (find_differences left_files right_files).2.Sorted (· ≤ ·) ∧
    find_differences left_files right_files =
      find_differences left_files right_files := by
  refine ⟨?_, ?_, ?_, ?_, rfl⟩
  · intro x
    simp [find_differences, Finset.mem_sort, Finset.mem_sdiff]
  · intro x
    simp [find_differences, Finset.mem_sort, Finset.mem_sdiff]
  · exact Finset.sort_sorted _ _
  · exact Finset.sort_sorted _ _

/-! ## Comparator: `compareSizes.compare_files`

`compare_files` intersects the key sets of the two filename→path dictionaries,
then for each matched name reads one comparison value per side —
`os.path.getsize(path)` when `use_checksum` is false, `hash_for_file(path,
algorithm)` when it is true — and appends `(filename, left_path, right_path,
left_value, right_value)` to `mismatches` when the values differ.  Any
exception raised inside the per-file `try` is printed and the loop `continue`s.

The embedding abstracts a side's dictionary-lookup-plus-read composition into
one function `String → Except String α` from matched filename to comparison
value (`α = ℕ` for sizes, `α = String` for hex digests); `.error` is a raised
exception.  The reported paths, used only for display, are omitted from the
entry tuples. -/

/-- The body of the per-file loop of `compare_files`: `none` when an exception
is raised or the two values agree, `some` mismatch entry when both reads
succeed with different values. -/
def mismatchEntry {α : Type} [DecidableEq α]
    (left_val right_val : String → Except String α) (n : String) :
    Option (String × α × α) :=
  match left_val n, right_val n with
  | .ok l, .ok r => if l ≠ r then some (n, l, r) else none
  | _, _ => none

/-- `compare_files(left_files, right_files, ...)` returning
`(mismatches, total_matches)`.  `matches` is the intersection of the two key
sets; Python iterates it in unspecified set order, embedded here in left-key
order (every claim below is order-insensitive). -/
def compare_files {α : Type} [DecidableEq α]
    (left_keys right_keys : List String)
    (left_val right_val : String → Except String α) :
    List (String × α × α) × Nat :=
  let matched := left_keys.filter (fun m => decide (m ∈ right_keys))
  (matched.filterMap (mismatchEntry left_val right_val), matched.length)

theorem mismatchEntry_eq_some {α : Type} [DecidableEq α]
    {left_val right_val : String → Except String α} {a : String}
    {x : String × α × α} :
    mismatchEntry left_val right_val a = some x ↔
      (x.1 = a ∧ left_val a = .ok x.2.1 ∧ right_val a = .ok x.2.2 ∧
        x.2.1 ≠ x.2.2) := by
  obtain ⟨x1, x2, x3⟩ := x
  unfold mismatchEntry
  rcases hl : left_val a with e | l
  · simp
  · rcases hr : right_val a with e | r
    · simp
    · dsimp only
      by_cases hlr : l = r
      · subst hlr
        constructor
        · intro h
          simp at h
        · rintro ⟨-, h2, h3, h4⟩
          rw [Except.ok.injEq] at h2 h3
          exact absurd (h2.symm.trans h3) h4
      · rw [if_pos hlr]
        simp only [Option.some.injEq, Prod.mk.injEq, Except.ok.injEq]
        constructor
        · rintro ⟨rfl, rfl, rfl⟩
          exact ⟨rfl, rfl, rfl, hlr⟩
        · rintro ⟨rfl, rfl, rfl, -⟩
          exact ⟨rfl, rfl, rfl⟩

/-- Characterization of membership in the mismatch list: an entry is reported
for `n` exactly when `n` is matched on both sides, both reads succeed, and the
two values differ. -/
theorem mem_compare_files {α : Type} [DecidableEq α]
    (left_keys right_keys : List String)
    (left_val right_val : String → Except String α) (n : String) (l r : α) :
    (n, l, r) ∈ (compare_files left_keys right_keys left_val right_val).1 ↔
      (n ∈ left_keys ∧ n ∈ right_keys ∧ left_val n = .ok l ∧
        right_val n = .ok r ∧ l ≠ r) := by
  simp only [compare_files, List.mem_filterMap, List.mem_filter,
    decide_eq_true_eq]
  constructor
  · rintro ⟨a, ⟨hal, har⟩, he⟩
    obtain ⟨h1, h2, h3, h4⟩ := mismatchEntry_eq_some.mp he
    simp only at h1 h2 h3 h4
    subst h1
    exact ⟨hal, har, h2, h3, h4⟩
  · rintro ⟨hal, har, h2, h3, h4⟩
    exact ⟨n, ⟨hal, har⟩, mismatchEntry_eq_some.mpr ⟨rfl, h2, h3, h4⟩⟩

/-- Every reported mismatch entry names a pair whose two reads succeeded. -/
theorem compare_files_entry_reads_ok {α : Type} [DecidableEq α]
    (left_keys right_keys : List String)
    (left_val right_val : String → Except String α)
    (x : String × α × α)
    (hx : x ∈ (compare_files left_keys right_keys left_val right_val).1) :
    left_val x.1 = .ok x.2.1 ∧ right_val x.1 = .ok x.2.2 := by
  simp only [compare_files, List.mem_filterMap] at hx
  obtain ⟨a, _, he⟩ := hx
  obtain ⟨h1, h2, h3, _⟩ := mismatchEntry_eq_some.mp he
  rw [h1]
  exact ⟨h2, h3⟩

/-- Claim C3. BySize comparator correctness: a matched pair whose size reads
succeed is reported as a mismatch iff the two byte sizes differ, i.e. it is
classified `Equal` iff the sizes are identical. -/
theorem compare_files_bysize_spec (left_keys right_keys : List String)
    (left_size right_size : String → Except String Nat) (n : String)
    (sl sr : Nat) (hl : n ∈ left_keys) (hr : n ∈ right_keys)
    (hsl : left_size n = .ok sl) (hsr : right_size n = .ok sr) :
    ((n, sl, sr) ∈
        (compare_files left_keys right_keys left_size right_size).1 ↔
      sl ≠ sr) ∧
    (sl = sr → ∀ x ∈ (compare_files left_keys right_keys left_size right_size).1,
      x.1 ≠ n) := by
  constructor
  · rw [mem_compare_files]
    constructor
    · rintro ⟨_, _, _, _, h⟩
      exact h
    · intro h
      exact ⟨hl, hr, hsl, hsr, h⟩
  · rintro rfl x hx h1
    obtain ⟨hxl, hxr⟩ := compare_files_entry_reads_ok _ _ _ _ _ hx
    rw [h1, hsl] at hxl
    rw [h1, hsr] at hxr
    obtain ⟨nn, _, he⟩ := by
      simpa only [compare_files, List.mem_filterMap] using hx
    obtain ⟨_, _, _, hne⟩ := mismatchEntry_eq_some.mp he
    rw [Except.ok.injEq] at hxl hxr
    exact hne (by rw [← hxl, ← hxr])

/-- Witness for C3: sizes 10 vs 12 for matched name `"a"` are reported, and
equal sizes would not be. -/
theorem compare_files_bysize_spec_witness :
    "a" ∈ ["a"] ∧ "a" ∈ ["a"] ∧
    (fun _ : String => (Except.ok 10 : Except String Nat)) "a" = .ok 10 ∧
    (fun _ : String => (Except.ok 12 : Except String Nat)) "a" = .ok 12 ∧
    (((("a", 10, 12) : String × Nat × Nat) ∈
        (compare_files ["a"] ["a"] (fun _ => .ok 10) (fun _ => .ok 12)).1 ↔
      (10 : Nat) ≠ 12) ∧
     ((10 : Nat) = 12 →
      ∀ x ∈ (compare_files ["a"] ["a"]
          (fun _ : String => (Except.ok 10 : Except String Nat))
          (fun _ => .ok 12)).1, x.1 ≠ "a")) :=
  ⟨by decide, by decide, rfl, rfl,
    compare_files_bysize_spec ["a"] ["a"] _ _ "a" 10 12 (by decide) (by decide)
      rfl rfl⟩

/-- Claim C4, counterexample. A matched pair whose left read raises is *not*
classified `Mismatched`: with one matched name `"a"` whose left-side read
fails, `compare_files` returns an empty mismatch list (so the pair is absent
from the final report), while the pair was still counted as processed. -/
theorem compare_files_error_dropped_cex :
    (compare_files ["a"] ["a"]
        (fun _ : String => (Except.error "unreadable" : Except String Nat))
        (fun _ => Except.ok 5)).1 = [] ∧
    (compare_files ["a"] ["a"]
        (fun _ : String => (Except.error "unreadable" : Except String Nat))
        (fun _ => Except.ok 5)).2 = 1 := by
  constructor <;> rfl

/-- Claim C4, amended. Per-file compare errors are non-fatal: the loop counts
every matched pair and every *other* matched pair is still compared and
reported exactly when its two values differ; but the failing pair is skipped —
it never appears in the mismatch list, hence is absent from the final report
rather than being classified `Mismatched` with an error note. -/
theorem compare_files_error_skipped {α : Type} [DecidableEq α]
    (left_keys right_keys : List String)
    (left_val right_val : String → Except String α) (n e : String)
    (he : left_val n = .error e ∨ right_val n = .error e) :
    (∀ x ∈ (compare_files left_keys right_keys left_val right_val).1,
      x.1 ≠ n) ∧
    (compare_files left_keys right_keys left_val right_val).2 =
      (left_keys.filter (fun m => decide (m ∈ right_keys))).length ∧
    (∀ m l r, (m, l, r) ∈
        (compare_files left_keys right_keys left_val right_val).1 ↔
      (m ∈ left_keys ∧ m ∈ right_keys ∧ left_val m = .ok l ∧
        right_val m = .ok r ∧ l ≠ r)) := by
  refine ⟨?_, rfl, ?_⟩
  · intro x hx h1
    obtain ⟨hxl, hxr⟩ := compare_files_entry_reads_ok _ _ _ _ _ hx
    rw [h1] at hxl hxr
    rcases he with he | he
    · rw [he] at hxl
      exact Except.noConfusion hxl
    · rw [he] at hxr
      exact Except.noConfusion hxr
  · intro m l r
    exact mem_compare_files _ _ _ _ _ _ _

/-- Witness for C4 (amended) at a single matched name `"a"` whose left read
fails. -/
theorem compare_files_error_skipped_witness :
    ((fun _ : String => (Except.error "unreadable" : Except String Nat)) "a" =
        .error "unreadable" ∨
      (fun _ : String => (Except.ok 5 : Except String Nat)) "a" =
        .error "unreadable") ∧
    ((∀ x ∈ (compare_files ["a"] ["a"]
        (fun _ : String => (Except.error "unreadable" : Except String Nat))
        (fun _ => Except.ok 5)).1, x.1 ≠ "a") ∧
     (compare_files ["a"] ["a"]
        (fun _ : String => (Except.error "unreadable" : Except String Nat))
        (fun _ => Except.ok 5)).2 =
      (["a"].filter (fun m => decide (m ∈ ["a"]))).length ∧
     (∀ m, ∀ l r : Nat, (m, l, r) ∈
        (compare_files ["a"] ["a"]
          (fun _ : String => (Except.error "unreadable" : Except String Nat))
          (fun _ => Except.ok 5)).1 ↔
      (m ∈ ["a"] ∧ m ∈ ["a"] ∧
        (fun _ : String => (Except.error "unreadable" : Except String Nat)) m =
          .ok l ∧
        (fun _ : String => (Except.ok 5 : Except String Nat)) m = .ok r ∧
        l ≠ r))) :=
  ⟨Or.inl rfl,
    compare_files_error_skipped ["a"] ["a"] _ _ "a" "unreadable" (Or.inl rfl)⟩

/-! ## ByHash strategy: `lib/hash_for_file.hash_for_file`

`hash_for_file` opens the file in binary mode and feeds
`iter(lambda: f.read(block_size), b"")` — the file's bytes cut into
consecutive blocks of at most `block_size` bytes — into a `hashlib` hasher,
then returns `hexdigest()`.  A `hashlib` hasher's state after a sequence of
`update` calls depends only on the concatenation of the absorbed chunks, so it
is embedded as the list of absorbed bytes, with `hexdigest` an uninterpreted
pure function `digest` of those bytes.  Bytes are `Nat`s; the embedding is
faithful for `block_size ≥ 1` (the shipped default is 8192, and every caller
in the repository uses it). -/

/-- The successive return values of `f.read(block_size)`: consecutive chunks
of at most `block_size` bytes covering the content, for `block_size ≥ 1`. -/
def readChunks (block_size : Nat) : List Nat → List (List Nat)
  | [] => []
  | b :: rest =>
    (b :: rest.take (block_size - 1)) ::
      readChunks block_size (rest.drop (block_size - 1))
termination_by l => l.length
decreasing_by
  simp only [List.length_drop, List.length_cons]
  omega

/-- `hash_for_file(file_path, algorithm, block_size)`: absorb the chunks in
order into the hasher and apply the digest to the final state. -/
def hash_for_file (digest : List Nat → String) (block_size : Nat)
    (content : List Nat) : String :=
  digest ((readChunks block_size content).foldl (fun acc c => acc ++ c) [])

theorem readChunks_join (block_size : Nat) (content : List Nat) :
    (readChunks block_size content).flatten = content := by
  induction content using readChunks.induct block_size with
  | case1 => simp [readChunks]
  | case2 b rest ih =>
    rw [readChunks]
    simp only [List.flatten, List.cons_append]
    rw [ih, List.take_append_drop]

theorem foldl_append_eq_join (l : List (List Nat)) (acc : List Nat) :
    l.foldl (fun acc c => acc ++ c) acc = acc ++ l.flatten := by
  induction l generalizing acc with
  | nil => simp
  | cons c cs ih => simp [List.foldl_cons, ih, List.append_assoc]

/-- Claim C9. ByHash on identical content: the streamed hash equals the digest
of the whole byte content (so it is a deterministic function of content alone,
independent of the block size), and a matched pair whose two sides hash the
same content is never reported as a mismatch — it is classified `Equal`. -/
theorem byhash_identical_content (digest : List Nat → String)
    (block_size : Nat) (hbs : 0 < block_size) (c : List Nat)
    (left_keys right_keys : List String)
    (left_val right_val : String → Except String String) (n : String)
    (hl : left_val n = .ok (hash_for_file digest block_size c))
    (hr : right_val n = .ok (hash_for_file digest block_size c)) :
    hash_for_file digest block_size c = digest c ∧
    (∀ bs2 : Nat, 0 < bs2 →
      hash_for_file digest block_size c = hash_for_file digest bs2 c) ∧
    (∀ x ∈ (compare_files left_keys right_keys left_val right_val).1,
      x.1 ≠ n) := by
  have hfun : ∀ bs : Nat, hash_for_file digest bs c = digest c := by
    intro bs
    unfold hash_for_file
    rw [foldl_append_eq_join, List.nil_append, readChunks_join]
  refine ⟨hfun block_size, fun bs2 _ => by rw [hfun, hfun], ?_⟩
  intro x hx h1
  obtain ⟨hxl, hxr⟩ := compare_files_entry_reads_ok _ _ _ _ _ hx
  rw [h1, hl] at hxl
  rw [h1, hr] at hxr
  obtain ⟨a, -, he⟩ := by
    simpa only [compare_files, List.mem_filterMap] using hx
  obtain ⟨-, -, -, hne⟩ := mismatchEntry_eq_some.mp he
  rw [Except.ok.injEq] at hxl hxr
  exact hne (by rw [← hxl, ← hxr])

/-- Witness for C9: content `[0, 1, 2]`, the default 8192-byte block size, a
digest that renders the absorbed bytes, one matched name `"f"`. -/
theorem byhash_identical_content_witness :
    0 < 8192 ∧
    ((fun _ : String =>
        (Except.ok (hash_for_file (fun l => toString l) 8192 [0, 1, 2]) :
          Except String String)) "f" =
      .ok (hash_for_file (fun l => toString l) 8192 [0, 1, 2])) ∧
    (hash_for_file (fun l => toString l) 8192 [0, 1, 2] =
        (fun l : List Nat => toString l) [0, 1, 2] ∧
      (∀ bs2 : Nat, 0 < bs2 →
        hash_for_file (fun l => toString l) 8192 [0, 1, 2] =
          hash_for_file (fun l => toString l) bs2 [0, 1, 2]) ∧
      (∀ x ∈ (compare_files ["f"] ["f"]
          (fun _ : String =>
            (Except.ok (hash_for_file (fun l => toString l) 8192 [0, 1, 2]) :
              Except String String))
          (fun _ =>
            .ok (hash_for_file (fun l => toString l) 8192 [0, 1, 2]))).1,
        x.1 ≠ "f")) :=
  ⟨by decide, rfl,
    byhash_identical_content (fun l => toString l) 8192 (by decide) [0, 1, 2]
      ["f"] ["f"] _ _ "f" rfl rfl⟩

/-! ## Tree Scanner: `compareFolders.scan_directory` and
`compareSizes.scan_directory_for_comparison`

The filesystem under a scanned root is modelled as a tree of entries.  A
symlink records whether its target resolves to a directory (`os.path.isdir` /
`DirEntry.is_dir` follow links); its target's subtree lives elsewhere and is
deliberately not carried, since neither `os.walk` (default
`followlinks=False`) nor pre-3.13 `pathlib` `**` globbing descends through a
directory symlink.  `special` is a non-regular, non-directory entry (FIFO,
socket, device).

`os.walk` classifies each entry by `is_dir()` (following links): directories
and directory symlinks go to `dirs`, everything else — regular files, file
symlinks, broken symlinks, specials — goes to `files`.  Only real directories
are recursed into.  `scan_directory` consumes only `files`, filtered by
extension.  `os.walk` yields a directory's own files before its
subdirectories'; this embedding splices a subdirectory's names at the
subdirectory's position instead, which produces the same multiset of names,
and every claim below is membership-only. -/

inductive Entry where
  | file (name : String)
  | dir (name : String) (children : List Entry)
  | symlinkFile (name : String)
  | symlinkDir (name : String)
  | special (name : String)

/-- The filenames accumulated over `os.walk(directory)` (default
`followlinks=False`): every non-directory entry's name, recursing into real
subdirectories only. -/
def walkFiles : List Entry → List String
  | [] => []
  | .file n :: rest => n :: walkFiles rest
  | .symlinkFile n :: rest => n :: walkFiles rest
  | .special n :: rest => n :: walkFiles rest
  | .symlinkDir _ :: rest => walkFiles rest
  | .dir _ cs :: rest => walkFiles cs ++ walkFiles rest

/-- `pathlib.Path.is_file()`: true for a regular file or a symlink resolving
to one (the call follows symlinks); false for directories, directory
symlinks, and special files. -/
def entryIsFile : Entry → Bool
  | .file _ => true
  | .symlinkFile _ => true
  | _ => false

def entryName : Entry → String
  | .file n => n
  | .dir n _ => n
  | .symlinkFile n => n
  | .symlinkDir n => n
  | .special n => n

/-- The non-recursive branch of `scan_directory`:
`[item.name for item in directory_path.iterdir() if item.is_file()]`. -/
def topLevelFiles (cs : List Entry) : List String :=
  (cs.filter entryIsFile).map entryName

/-- The names of the regular files under a root, recursing into real
subdirectories (what the specification calls the records the scan may
contain). -/
def regularFileNames : List Entry → List String
  | [] => []
  | .file n :: rest => n :: regularFileNames rest
  | .dir _ cs :: rest => regularFileNames cs ++ regularFileNames rest
  | .symlinkFile _ :: rest => regularFileNames rest
  | .symlinkDir _ :: rest => regularFileNames rest
  | .special _ :: rest => regularFileNames rest

/-- What the scanned root path resolves to: nothing, a non-directory, or a
directory with the given children. -/
inductive RootState where
  | missing
  | notADir
  | root (children : List Entry)

/-- The two `ValueError`s raised by both scanners, distinguished by message:
`"Directory does not exist: …"` and `"Path is not a directory: …"`. -/
inductive ScanError where
  | notFound
  | notADirectory
deriving DecidableEq, Repr

/-- `s.lower()` viewed on the string's character sequence.  `Char.toLower`
lowers the ASCII range, which models CPython's `str.lower` on the ASCII
filenames and extensions all claims are about. -/
def lower (s : String) : List Char :=
  s.data.map Char.toLower

/-- The extension test applied to each filename:
`not filter_extension or filename.lower().endswith(filter_extension.lower())`
(an absent filter is `None`; an empty string is falsy and also accepts
everything).  `endswith` is suffix comparison of the character sequences. -/
def passesFilter (filter_extension : Option String) (filename : String) :
    Bool :=
  match filter_extension with
  | none => true
  | some f => f.isEmpty || (lower f).isSuffixOf (lower filename)

/-- `compareFolders.scan_directory(directory, filter_extension,
include_subdirs)`, reduced to the filenames list (the parallel full-paths list
adds the root prefix to each name and carries no extra information for the
claims below). -/
def scan_directory (directory : RootState)
    (filter_extension : Option String) (include_subdirs : Bool) :
    Except ScanError (List String) :=
  match directory with
  | .missing => .error .notFound
  | .notADir => .error .notADirectory
  | .root cs =>
    .ok ((if include_subdirs then walkFiles cs else topLevelFiles cs).filter
      (passesFilter filter_extension))

/-- `compareSizes.scan_directory_for_comparison(directory,
filter_extension)`, reduced to the insertion sequence of dictionary keys (the
dict maps each filename to its last-seen full path; no claim below concerns
the path values). -/
def scan_directory_for_comparison (directory : RootState)
    (filter_extension : Option String) : Except ScanError (List String) :=
  match directory with
  | .missing => .error .notFound
  | .notADir => .error .notADirectory
  | .root cs => .ok ((walkFiles cs).filter (passesFilter filter_extension))

/-- Claim C7. Scan precondition errors: both scanners fail with the
does-not-exist error on a missing root and with the not-a-directory error on a
non-directory root, returning no scan result in either case. -/
theorem scan_precondition_errors (filter_extension : Option String)
    (include_subdirs : Bool) :
    scan_directory .missing filter_extension include_subdirs =
      .error .notFound ∧
    scan_directory .notADir filter_extension include_subdirs =
      .error .notADirectory ∧
    scan_directory_for_comparison .missing filter_extension =
      .error .notFound ∧
    scan_directory_for_comparison .notADir filter_extension =
      .error .notADirectory ∧
    (∀ l, scan_directory .missing filter_extension include_subdirs ≠ .ok l) ∧
    (∀ l, scan_directory .notADir filter_extension include_subdirs ≠ .ok l) ∧
    (∀ l, scan_directory_for_comparison .missing filter_extension ≠ .ok l) ∧
    (∀ l, scan_directory_for_comparison .notADir filter_extension ≠
      .ok l) := by
  refine ⟨rfl, rfl, rfl, rfl, ?_, ?_, ?_, ?_⟩ <;>
    intro l h <;> exact Except.noConfusion h

/-- Claim C5, counterexample. Not every scanned record is a regular file: a
root holding one named pipe `"p"` is scanned without error, yet `"p"` appears
in the result while the tree has no regular file of that name — `os.walk`
places special files in its `files` list and the code applies no
regular-file check. -/
theorem scan_includes_special_cex :
    scan_directory (.root [.special "p"]) none true = .ok ["p"] ∧
    "p" ∉ regularFileNames [.special "p"] := by
  constructor
  · simp [scan_directory, walkFiles, passesFilter, List.filter]
  · simp [regularFileNames]

/-- Claim C5, amended. Symbolic links to directories are not traversed into and
neither symlinks nor special files make the scan fail; however, symlinks to
files appear in the results of both scan modes, and special files (pipes,
sockets) additionally appear in the recursive results — a scanned record is
not guaranteed to be a regular file. -/
theorem scan_symlink_handling (cs : List Entry)
    (filter_extension : Option String) (include_subdirs : Bool) :
    (∃ l, scan_directory (.root cs) filter_extension include_subdirs =
      .ok l) ∧
    (∀ n rest, walkFiles (.symlinkDir n :: rest) = walkFiles rest) ∧
    (∀ n rest, topLevelFiles (.symlinkDir n :: rest) = topLevelFiles rest) ∧
    (∀ n rest, topLevelFiles (.special n :: rest) = topLevelFiles rest) ∧
    (∀ n rest, walkFiles (.symlinkFile n :: rest) = n :: walkFiles rest) ∧
    (∀ n rest, topLevelFiles (.symlinkFile n :: rest) =
      n :: topLevelFiles rest) ∧
    (∀ n rest, walkFiles (.special n :: rest) = n :: walkFiles rest) := by
  refine ⟨⟨_, rfl⟩, ?_, ?_, ?_, ?_, ?_, ?_⟩ <;> intro n rest <;>
    simp [walkFiles, topLevelFiles, entryIsFile, entryName, List.filter]

/-- Claim C6. Extension filter correctness: with a non-empty filter a walked
filename is kept iff its lowercase form ends with the lowercase filter; with
an absent or empty filter everything walked (in particular every regular
file) is kept; and scanning `a.mov`, `b.txt`, `c.MOV` with filter `".mov"`
yields exactly `a.mov` and `c.MOV`. -/
theorem extension_filter_spec (cs : List Entry) (f : String) (hf : f ≠ "")
    (include_subdirs : Bool) :
    (∃ l, scan_directory (.root cs) (some f) include_subdirs = .ok l ∧
      ∀ n, n ∈ l ↔
        (n ∈ (if include_subdirs then walkFiles cs else topLevelFiles cs) ∧
          (lower f).isSuffixOf (lower n) = true)) ∧
    (∀ filt : Option String, filt = none ∨ filt = some "" →
      ∃ l, scan_directory (.root cs) filt include_subdirs = .ok l ∧
        ∀ n, n ∈ l ↔
          n ∈ (if include_subdirs then walkFiles cs else topLevelFiles cs)) ∧
    (∃ l, scan_directory_for_comparison (.root cs) (some f) = .ok l ∧
      ∀ n, n ∈ l ↔
        (n ∈ walkFiles cs ∧ (lower f).isSuffixOf (lower n) = true)) ∧
    scan_directory
        (.root [.file "a.mov", .file "b.txt", .file "c.MOV"]) (some ".mov")
        true =
      .ok ["a.mov", "c.MOV"] := by
  have hfe : f.isEmpty = false := by
    rcases h : f.isEmpty with _ | _
    · rfl
    · exact absurd ((String.isEmpty_iff f).mp h) hf
  refine ⟨?_, ?_, ?_, ?_⟩
  · refine ⟨_, rfl, ?_⟩
    intro n
    rw [List.mem_filter]
    simp [passesFilter, hfe]
  · rintro filt (rfl | rfl)
    · refine ⟨_, rfl, ?_⟩
      intro n
      rw [List.mem_filter]
      simp [passesFilter]
    · refine ⟨_, rfl, ?_⟩
      intro n
      rw [List.mem_filter]
      have hp : passesFilter (some "") n = true := by
        simp only [passesFilter, Bool.or_eq_true]
        exact Or.inl (by decide)
      simp [hp]
  · refine ⟨_, rfl, ?_⟩
    intro n
    rw [List.mem_filter]
    simp [passesFilter, hfe]
  · have hconc :
        List.filter (passesFilter (some ".mov"))
          ["a.mov", "b.txt", "c.MOV"] = ["a.mov", "c.MOV"] := by
      decide
    simp [scan_directory, walkFiles, hconc]

/-- Witness for C6 at the filter `".mov"` over the three-file tree of the
specification's example. -/
theorem extension_filter_spec_witness :
    (".mov" : String) ≠ "" ∧
    ((∃ l, scan_directory
          (.root [.file "a.mov", .file "b.txt", .file "c.MOV"]) (some ".mov")
          true = .ok l ∧
        ∀ n, n ∈ l ↔
          (n ∈ (if true then
              walkFiles [.file "a.mov", .file "b.txt", .file "c.MOV"]
            else topLevelFiles [.file "a.mov", .file "b.txt", .file "c.MOV"]) ∧
            (lower ".mov").isSuffixOf (lower n) = true)) ∧
      (∀ filt : Option String, filt = none ∨ filt = some "" →
        ∃ l, scan_directory
            (.root [.file "a.mov", .file "b.txt", .file "c.MOV"]) filt true =
          .ok l ∧
          ∀ n, n ∈ l ↔
            n ∈ (if true then
                walkFiles [.file "a.mov", .file "b.txt", .file "c.MOV"]
              else
                topLevelFiles [.file "a.mov", .file "b.txt", .file "c.MOV"])) ∧
      (∃ l, scan_directory_for_comparison
          (.root [.file "a.mov", .file "b.txt", .file "c.MOV"]) (some ".mov") =
        .ok l ∧
        ∀ n, n ∈ l ↔
          (n ∈ walkFiles [.file "a.mov", .file "b.txt", .file "c.MOV"] ∧
            (lower ".mov").isSuffixOf (lower n) = true)) ∧
      scan_directory
          (.root [.file "a.mov", .file "b.txt", .file "c.MOV"]) (some ".mov")
          true =
        .ok ["a.mov", "c.MOV"]) :=
  ⟨by decide,
    extension_filter_spec [.file "a.mov", .file "b.txt", .file "c.MOV"] ".mov"
      (by decide) true⟩

/-! ## Exit codes: `compareFolders.main` and `compareSizes.main`

Each `main` wraps its whole run in a `try`; any exception (including
`KeyboardInterrupt`) returns 1, and on success the difference/mismatch counts
decide the code.  The run outcome is embedded as `Except Unit (ℕ × ℕ)`: an
`.error` is a raised exception, an `.ok` carries `compare_directories`'s
returned pair. -/

/-- Exit code of `compareFolders.main`: 1 on exception, else 1 iff
`left_count + right_count > 0`, else 0. -/
def compareFolders_main_exit (outcome : Except Unit (Nat × Nat)) : Nat :=
  match outcome with
  | .error _ => 1
  | .ok (left_count, right_count) =>
    if 0 < left_count + right_count then 1 else 0

/-- Exit code of `compareSizes.main`: 1 on exception, else 1 iff
`mismatches > 0`, else 0 (the second component, `total_matches`, is unused
for the code). -/
def compareSizes_main_exit (outcome : Except Unit (Nat × Nat)) : Nat :=
  match outcome with
  | .error _ => 1
  | .ok (mismatches, _total) => if 0 < mismatches then 1 else 0

/-- Case analysis of `compareFolders.main`'s exit code. -/
theorem compareFolders_exit_characterization (o : Except Unit (Nat × Nat)) :
    (compareFolders_main_exit o = 0 ∨ compareFolders_main_exit o = 1) ∧
    (compareFolders_main_exit o = 0 ↔
      ∃ lc rc, o = .ok (lc, rc) ∧ lc + rc = 0) ∧
    (compareFolders_main_exit o = 1 ↔
      o = .error () ∨ ∃ lc rc, o = .ok (lc, rc) ∧ 0 < lc + rc) := by
  rcases o with u | ⟨lc, rc⟩
  · cases u
    refine ⟨Or.inr rfl, ?_, ?_⟩ <;> simp [compareFolders_main_exit]
  · refine ⟨?_, ?_, ?_⟩
    · by_cases h : 0 < lc + rc <;> simp [compareFolders_main_exit, h]
    · constructor
      · intro h0
        refine ⟨lc, rc, rfl, ?_⟩
        by_contra hne
        simp [compareFolders_main_exit, Nat.pos_of_ne_zero hne] at h0
      · rintro ⟨lc', rc', heq, hsum⟩
        have hp := Except.ok.inj heq
        rw [Prod.mk.injEq] at hp
        obtain ⟨rfl, rfl⟩ := hp
        simp [compareFolders_main_exit, hsum]
    · constructor
      · intro h1
        by_cases h : 0 < lc + rc
        · exact Or.inr ⟨lc, rc, rfl, h⟩
        · simp [compareFolders_main_exit, h] at h1
      · rintro (heq | ⟨lc', rc', heq, hpos⟩)
        · exact Except.noConfusion heq
        · have hp := Except.ok.inj heq
          rw [Prod.mk.injEq] at hp
          obtain ⟨rfl, rfl⟩ := hp
          simp [compareFolders_main_exit, hpos]

theorem compareSizes_exit_characterization (o : Except Unit (Nat × Nat)) :
    (compareSizes_main_exit o = 0 ∨ compareSizes_main_exit o = 1) ∧
    (compareSizes_main_exit o = 0 ↔
      ∃ m t, o = .ok (m, t) ∧ m = 0) ∧
    (compareSizes_main_exit o = 1 ↔
      o = .error () ∨ ∃ m t, o = .ok (m, t) ∧ 0 < m) := by
  rcases o with u | ⟨m, t⟩
  · cases u
    refine ⟨Or.inr rfl, ?_, ?_⟩ <;> simp [compareSizes_main_exit]
  · refine ⟨?_, ?_, ?_⟩
    · by_cases h : 0 < m <;> simp [compareSizes_main_exit, h]
    · constructor
      · intro h0
        refine ⟨m, t, rfl, ?_⟩
        by_contra hne
        simp [compareSizes_main_exit, Nat.pos_of_ne_zero hne] at h0
      · rintro ⟨m', t', heq, hm⟩
        have hp := Except.ok.inj heq
        rw [Prod.mk.injEq] at hp
        obtain ⟨rfl, rfl⟩ := hp
        simp [compareSizes_main_exit, hm]
    · constructor
      · intro h1
        by_cases h : 0 < m
        · exact Or.inr ⟨m, t, rfl, h⟩
        · simp [compareSizes_main_exit, h] at h1
      · rintro (heq | ⟨m', t', heq, hpos⟩)
        · exact Except.noConfusion heq
        · have hp := Except.ok.inj heq
          rw [Prod.mk.injEq] at hp
          obtain ⟨rfl, rfl⟩ := hp
          simp [compareSizes_main_exit, hpos]

/-- Claim C8. Exit-code contract: both scripts exit 0 exactly on a successful
run that found no differences/mismatches, and exit 1 exactly when differences
were found or the run raised — the two latter cases share exit code 1, and no
other code occurs. -/
theorem main_exit_codes (o1 o2 : Except Unit (Nat × Nat)) :
    (compareFolders_main_exit o1 = 0 ∨ compareFolders_main_exit o1 = 1) ∧
    (compareFolders_main_exit o1 = 0 ↔
      ∃ lc rc, o1 = .ok (lc, rc) ∧ lc + rc = 0) ∧
    (compareFolders_main_exit o1 = 1 ↔
      o1 = .error () ∨ ∃ lc rc, o1 = .ok (lc, rc) ∧ 0 < lc + rc) ∧
    (compareSizes_main_exit o2 = 0 ∨ compareSizes_main_exit o2 = 1) ∧
    (compareSizes_main_exit o2 = 0 ↔
      ∃ m t, o2 = .ok (m, t) ∧ m = 0) ∧
    (compareSizes_main_exit o2 = 1 ↔
      o2 = .error () ∨ ∃ m t, o2 = .ok (m, t) ∧ 0 < m) := by
  obtain ⟨h1, h2, h3⟩ := compareFolders_exit_characterization o1
  obtain ⟨h4, h5, h6⟩ := compareSizes_exit_characterization o2
  exact ⟨h1, h2, h3, h4, h5, h6⟩

end Tinkertoys
